import Mathlib

/-!
Shallow embedding of the Army Roster Manager logic of app.js
(src/unnamed/part_000): the in-memory army list, the favorites mapping,
the points total, and the localStorage persistence round trip.

JavaScript numbers that arise here are either integers or NaN (the only
non-integer producible by the embedded code paths is parseInt returning
NaN), so they are modelled by the type JsNum below.  JavaScript objects
used as string-keyed maps (favorites, localStorage) are modelled as
association lists in insertion order, which is the enumeration and
serialization order of string-keyed properties of a JS object.
-/

namespace ListBuilder

/-- A JavaScript number as produced by the embedded code: an integer or NaN. -/
inductive JsNum where
  | nan : JsNum
  | int (n : Int) : JsNum
deriving DecidableEq, Repr

/-- JavaScript addition on the numbers that occur here: NaN is absorbing. -/
def jsAdd : JsNum → JsNum → JsNum
  | JsNum.int a, JsNum.int b => JsNum.int (a + b)
  | _, _ => JsNum.nan

/-- JS whitespace characters trimmed by parseInt (the common ASCII ones). -/
def isJsWs (c : Char) : Bool :=
  c = ' ' || c = '\t' || c = '\n' || c = '\r'

/-- ASCII decimal digit test. -/
def isAsciiDigit (c : Char) : Bool :=
  48 ≤ c.toNat && c.toNat ≤ 57

/-- Numeric value of an ASCII digit character. -/
def digitVal (c : Char) : Nat := c.toNat - 48

/-- Decimal value of a most-significant-first digit-character list. -/
def digitsVal (cs : List Char) : Nat :=
  cs.foldl (fun a c => 10 * a + digitVal c) 0

/-- The character of a decimal digit. -/
def digitToChar (d : Nat) : Char :=
  match d with
  | 0 => '0' | 1 => '1' | 2 => '2' | 3 => '3' | 4 => '4'
  | 5 => '5' | 6 => '6' | 7 => '7' | 8 => '8' | 9 => '9'
  | _ => '0'

/-- Most-significant-first decimal digit characters of a natural number. -/
def natChars (n : Nat) : List Char :=
  if n = 0 then ['0'] else ((Nat.digits 10 n).reverse).map digitToChar

/-- Decimal digit characters of an integer, with a leading minus sign when
negative.  This is the canonical rendering used by JSON.stringify and by
number-to-string coercion for the integer values occurring here. -/
def intChars (n : Int) : List Char :=
  if n < 0 then '-' :: natChars n.natAbs else natChars n.toNat

/-- Canonical decimal string of an integer. -/
def intToStr (n : Int) : String := ⟨intChars n⟩

/-- Embedding of the JavaScript call parseInt(s, 10): skip leading
whitespace, accept an optional sign, then read the longest prefix of
decimal digits; if that prefix is empty the result is NaN. -/
def parseIntJs (s : String) : JsNum :=
  match s.data.dropWhile isJsWs with
  | [] => JsNum.nan
  | c :: rest =>
    if c = '-' then
      let ds := rest.takeWhile isAsciiDigit
      if ds.isEmpty then JsNum.nan else JsNum.int (-(digitsVal ds : Int))
    else if c = '+' then
      let ds := rest.takeWhile isAsciiDigit
      if ds.isEmpty then JsNum.nan else JsNum.int (digitsVal ds)
    else
      let ds := (c :: rest).takeWhile isAsciiDigit
      if ds.isEmpty then JsNum.nan else JsNum.int (digitsVal ds)

/-- A roster entry: the object pushed onto armyList by addUnitToArmy. -/
structure RosterUnit where
  id : String
  name : String
  points : JsNum
deriving DecidableEq, Repr

/-- Embedding of addUnitToArmy (app.js lines 189-215): builds the unit
object with points parseInt-ed from the data attribute string and pushes
it onto armyList (DOM rendering side effects are outside the state). -/
def addUnitToArmy (unitId unitName unitPoints : String)
    (armyList : List RosterUnit) : List RosterUnit :=
  armyList ++ [{ id := unitId, name := unitName, points := parseIntJs unitPoints }]

/-- Embedding of removeUnitFromArmy (app.js lines 221-232): findIndex of
the first entry with the given id, and splice it out when found. -/
def removeUnitFromArmy (unitId : String) (armyList : List RosterUnit) :
    List RosterUnit :=
  match armyList.findIdx? (fun u => u.id == unitId) with
  | some i => armyList.take i ++ armyList.drop (i + 1)
  | none => armyList

/-- Whether the removal branch of removeUnitFromArmy runs, i.e. whether a
removal occurred (the index > -1 test of app.js line 224).  The source
function itself returns undefined; the specification describes this
observable as the boolean return of removeById. -/
def removeOccurred (unitId : String) (armyList : List RosterUnit) : Bool :=
  (armyList.findIdx? (fun u => u.id == unitId)).isSome

/-- Embedding of updatePointsTotal (app.js lines 237-240): reduce of
unit.points over armyList starting from 0. -/
def updatePointsTotal (armyList : List RosterUnit) : JsNum :=
  armyList.foldl (fun sum u => jsAdd sum u.points) (JsNum.int 0)

/-- A favorites value: the triple stored by the favorite-btn handler. -/
structure FavUnit where
  id : String
  name : String
  points : JsNum
deriving DecidableEq, Repr

/-- The favorites object: a string-keyed JS object in insertion order. -/
abbrev Favs : Type := List (String × FavUnit)

/-- Property read favorites[unitId] (presence of the key; the stored
values are always objects, hence truthy). -/
def favLookup (favorites : Favs) (unitId : String) : Option FavUnit :=
  (favorites.find? (fun p => p.1 == unitId)).map (fun p => p.2)

/-- The JS statement delete favorites[unitId]: the key is removed. -/
def favDelete (favorites : Favs) (unitId : String) : Favs :=
  favorites.filter (fun p => !(p.1 == unitId))

/-- Object.values(favorites) as used by renderFavorites (lines 298-302). -/
def listFavorites (favorites : Favs) : List FavUnit :=
  favorites.map (fun p => p.2)

/-- Embedding of the favorite-btn branch of the document click handler
(app.js lines 400-411): if favorites[unitId] is present the binding is
deleted (now not favorited, returned as false), otherwise the triple
built from the card data attributes is inserted under that key (now
favorited, returned as true).  The returned boolean is the resulting
favorited state that the handler reflects into the DOM. -/
def toggleFavorite (unitId unitName unitPoints : String)
    (favorites : Favs) : Bool × Favs :=
  match favLookup favorites unitId with
  | some _ => (false, favDelete favorites unitId)
  | none =>
    (true, favorites ++
      [(unitId, { id := unitId, name := unitName, points := parseIntJs unitPoints })])

/-- The data-unit-points attribute written by renderUnitCard (app.js
lines 151-155): the value of the cost element named Pts when present,
and the sentinel string N/A otherwise. -/
def unitPointsAttr (costValue : Option String) : String :=
  match costValue with
  | some v => v
  | none => "N/A"

/-!
JSON values, JSON.stringify and JSON.parse.  The repository delegates
serialization to the host JSON object; the model below implements the
JSON grammar.  Numbers written by the embedded code are integers (and
NaN, which JSON.stringify renders as null); non-integer number literals
met while parsing are kept as their lexeme in the numRaw constructor,
whose numeric value is never consumed by the embedded code.
-/

/-- A JSON value (object member lists in insertion order). -/
inductive Json where
  | null : Json
  | bool (b : Bool) : Json
  | num (n : Int) : Json
  | numRaw (lexeme : String) : Json
  | str (s : String) : Json
  | arr (xs : List Json) : Json
  | obj (kvs : List (String × Json)) : Json
deriving Repr

/-- The character of a hexadecimal digit, lowercase. -/
def hexDigitChar (d : Nat) : Char :=
  match d with
  | 0 => '0' | 1 => '1' | 2 => '2' | 3 => '3' | 4 => '4'
  | 5 => '5' | 6 => '6' | 7 => '7' | 8 => '8' | 9 => '9'
  | 10 => 'a' | 11 => 'b' | 12 => 'c' | 13 => 'd' | 14 => 'e' | 15 => 'f'
  | _ => '0'

/-- JSON string-body escaping of one character: quote and backslash get
a backslash escape, control characters a unicode escape, everything else
passes through. -/
def escChar (c : Char) : List Char :=
  if c = '"' then ['\\', '"']
  else if c = '\\' then ['\\', '\\']
  else if c.toNat < 32 then
    ['\\', 'u', '0', '0', hexDigitChar (c.toNat / 16), hexDigitChar (c.toNat % 16)]
  else [c]

/-- JSON string-body escaping of a character list. -/
def escChars (cs : List Char) : List Char :=
  cs.foldr (fun c acc => escChar c ++ acc) []

mutual

/-- JSON.stringify of a value, as characters. -/
def jsonChars : Json → List Char
  | Json.null => ['n', 'u', 'l', 'l']
  | Json.bool true => ['t', 'r', 'u', 'e']
  | Json.bool false => ['f', 'a', 'l', 's', 'e']
  | Json.num n => intChars n
  | Json.numRaw s => s.data
  | Json.str s => '"' :: (escChars s.data ++ ['"'])
  | Json.arr xs => '[' :: (elemsChars xs ++ [']'])
  | Json.obj kvs => '\x7b' :: (membersChars kvs ++ ['\x7d'])

/-- Comma-separated stringification of array elements. -/
def elemsChars : List Json → List Char
  | [] => []
  | [x] => jsonChars x
  | x :: xs => jsonChars x ++ ',' :: elemsChars xs

/-- Comma-separated stringification of object members. -/
def membersChars : List (String × Json) → List Char
  | [] => []
  | [(k, v)] => '"' :: (escChars k.data ++ '"' :: ':' :: jsonChars v)
  | (k, v) :: kvs =>
    ('"' :: (escChars k.data ++ '"' :: ':' :: jsonChars v)) ++ ',' :: membersChars kvs

end

/-- JSON.stringify of a value, as a string. -/
def jsonStringify (j : Json) : String := ⟨jsonChars j⟩

/-- Value of a hexadecimal digit character, when it is one. -/
def hexVal? (c : Char) : Option Nat :=
  if 48 ≤ c.toNat ∧ c.toNat ≤ 57 then some (c.toNat - 48)
  else if 97 ≤ c.toNat ∧ c.toNat ≤ 102 then some (c.toNat - 87)
  else if 65 ≤ c.toNat ∧ c.toNat ≤ 70 then some (c.toNat - 55)
  else none

/-- Parse the body of a JSON string literal after its opening quote,
returning the decoded characters and the remainder after the closing
quote.  An unescaped control character or an invalid escape fails, as in
the JSON grammar. -/
def parseStrChars : List Char → Option (List Char × List Char)
  | [] => none
  | c :: rest =>
    if c = '"' then some ([], rest)
    else if c = '\\' then
      match rest with
      | [] => none
      | e :: rest2 =>
        if e = '"' then (parseStrChars rest2).map (fun p => ('"' :: p.1, p.2))
        else if e = '\\' then (parseStrChars rest2).map (fun p => ('\\' :: p.1, p.2))
        else if e = '/' then (parseStrChars rest2).map (fun p => ('/' :: p.1, p.2))
        else if e = 'b' then (parseStrChars rest2).map (fun p => (Char.ofNat 8 :: p.1, p.2))
        else if e = 'f' then (parseStrChars rest2).map (fun p => (Char.ofNat 12 :: p.1, p.2))
        else if e = 'n' then (parseStrChars rest2).map (fun p => ('\n' :: p.1, p.2))
        else if e = 'r' then (parseStrChars rest2).map (fun p => ('\r' :: p.1, p.2))
        else if e = 't' then (parseStrChars rest2).map (fun p => ('\t' :: p.1, p.2))
        else if e = 'u' then
          match rest2 with
          | h1 :: h2 :: h3 :: h4 :: rest3 =>
            match hexVal? h1, hexVal? h2, hexVal? h3, hexVal? h4 with
            | some a, some b, some c2, some d =>
              (parseStrChars rest3).map (fun p =>
                (Char.ofNat (((a * 16 + b) * 16 + c2) * 16 + d) :: p.1, p.2))
            | _, _, _, _ => none
          | _ => none
        else none
    else if c.toNat < 32 then none
    else (parseStrChars rest).map (fun p => (c :: p.1, p.2))
termination_by cs => cs.length
decreasing_by all_goals (simp_all; try omega)

/-- Parse the tail of an exponent part (after the e or E): an optional
sign then at least one digit. -/
def parseExpTail (r : List Char) : Option (Bool × List Char) :=
  let r2 := if r.head? = some '+' ∨ r.head? = some '-' then r.tail else r
  if (r2.takeWhile isAsciiDigit).isEmpty then none
  else some (false, r2.dropWhile isAsciiDigit)

/-- Parse an optional exponent part; the boolean reports that no
fraction or exponent was present (an integer literal). -/
def parseExpOpt (cs : List Char) : Option (Bool × List Char) :=
  if cs.head? = some 'e' ∨ cs.head? = some 'E' then parseExpTail cs.tail
  else some (true, cs)

/-- Parse an optional fraction part followed by an optional exponent
part; the boolean reports an integer literal. -/
def parseFracExp (cs : List Char) : Option (Bool × List Char) :=
  if cs.head? = some '.' then
    if (cs.tail.takeWhile isAsciiDigit).isEmpty then none
    else
      match parseExpOpt (cs.tail.dropWhile isAsciiDigit) with
      | none => none
      | some (_, rest) => some (false, rest)
  else parseExpOpt cs

/-- Parse a JSON number literal: optional minus, an integer part with no
leading zero, then optional fraction and exponent.  Integer literals
yield a num value; others keep their lexeme as numRaw. -/
def parseNum (cs : List Char) : Option (Json × List Char) :=
  let sgn := if cs.head? = some '-' then (true, cs.tail) else (false, cs)
  match sgn.2 with
  | [] => none
  | c :: rest =>
    if ¬ isAsciiDigit c then none
    else
      let intpart :=
        if c = '0' then (['0'], rest)
        else (c :: rest.takeWhile isAsciiDigit, rest.dropWhile isAsciiDigit)
      match parseFracExp intpart.2 with
      | none => none
      | some (isInt, rest2) =>
        if isInt then
          let v : Int := (digitsVal intpart.1 : Nat)
          some (Json.num (if sgn.1 then -v else v), rest2)
        else
          some (Json.numRaw ⟨cs.take (cs.length - rest2.length)⟩, rest2)

mutual

/-- Parse a JSON value after optional whitespace; the fuel argument
bounds the recursion and one unit more than the input length always
suffices. -/
def parseValue : Nat → List Char → Option (Json × List Char)
  | 0, _ => none
  | Nat.succ fuel, cs =>
    let t := cs.dropWhile isJsWs
    if t.take 4 = ['n', 'u', 'l', 'l'] then some (Json.null, t.drop 4)
    else if t.take 4 = ['t', 'r', 'u', 'e'] then some (Json.bool true, t.drop 4)
    else if t.take 5 = ['f', 'a', 'l', 's', 'e'] then some (Json.bool false, t.drop 5)
    else if t.head? = some '"' then
      (parseStrChars t.tail).map (fun p => (Json.str ⟨p.1⟩, p.2))
    else if t.head? = some '[' then
      (if (t.tail.dropWhile isJsWs).head? = some ']' then
        some (Json.arr [], (t.tail.dropWhile isJsWs).tail)
      else (parseElems fuel t.tail).map (fun p => (Json.arr p.1, p.2)))
    else if t.head? = some '\x7b' then
      (if (t.tail.dropWhile isJsWs).head? = some '\x7d' then
        some (Json.obj [], (t.tail.dropWhile isJsWs).tail)
      else (parseMembers fuel t.tail).map (fun p => (Json.obj p.1, p.2)))
    else parseNum t

/-- Parse the elements of a nonempty JSON array up to the closing
bracket. -/
def parseElems : Nat → List Char → Option (List Json × List Char)
  | 0, _ => none
  | Nat.succ fuel, cs =>
    match parseValue fuel cs with
    | none => none
    | some (v, rest) =>
      let t := rest.dropWhile isJsWs
      if t.head? = some ',' then
        (parseElems fuel t.tail).map (fun p => (v :: p.1, p.2))
      else if t.head? = some ']' then some ([v], t.tail)
      else none

/-- Parse the members of a nonempty JSON object up to the closing
brace. -/
def parseMembers : Nat → List Char → Option (List (String × Json) × List Char)
  | 0, _ => none
  | Nat.succ fuel, cs =>
    let t := cs.dropWhile isJsWs
    if t.head? = some '"' then
      match parseStrChars t.tail with
      | none => none
      | some (k, rest1) =>
        let t1 := rest1.dropWhile isJsWs
        if t1.head? = some ':' then
          match parseValue fuel t1.tail with
          | none => none
          | some (v, rest3) =>
            let t3 := rest3.dropWhile isJsWs
            if t3.head? = some ',' then
              (parseMembers fuel t3.tail).map (fun p => ((⟨k⟩, v) :: p.1, p.2))
            else if t3.head? = some '\x7d' then some ([(⟨k⟩, v)], t3.tail)
            else none
        else none
    else none

end

/-- JSON.parse: parse one value and require only whitespace after it.
Throwing is modelled by returning none. -/
def parseJson (s : String) : Option Json :=
  match parseValue (s.data.length + 1) s.data with
  | some (j, rest) => if (rest.dropWhile isJsWs).isEmpty then some j else none
  | none => none

/-- The JSON value of a favorites number: NaN serializes as null. -/
def jsNumToJson : JsNum → Json
  | JsNum.int n => Json.num n
  | JsNum.nan => Json.null

/-- The JSON value of a stored favorite triple, fields in the insertion
order of the object literal at app.js line 407. -/
def favUnitToJson (u : FavUnit) : Json :=
  Json.obj [("id", Json.str u.id), ("name", Json.str u.name),
            ("points", jsNumToJson u.points)]

/-- The JSON value of the favorites object. -/
def favsToJson (favorites : Favs) : Json :=
  Json.obj (favorites.map (fun p => (p.1, favUnitToJson p.2)))

/-- The string written by saveFavorites (app.js lines 290-293):
JSON.stringify of the favorites object. -/
def stringifyFavs (favorites : Favs) : String :=
  jsonStringify (favsToJson favorites)

/-- A string-valued field of a parsed member list, empty when absent or
not a string (the fields read from a stored favorite are strings). -/
def strField (kvs : List (String × Json)) (k : String) : String :=
  match (kvs.find? (fun p => p.1 == k)).map (fun p => p.2) with
  | some (Json.str s) => s
  | _ => ""

/-- The points field of a parsed member list: an integer number when
present, otherwise the non-integer sentinel NaN (JSON.stringify writes
NaN as null, which reads back as the sentinel). -/
def numField (kvs : List (String × Json)) (k : String) : JsNum :=
  match (kvs.find? (fun p => p.1 == k)).map (fun p => p.2) with
  | some (Json.num n) => JsNum.int n
  | _ => JsNum.nan

/-- Decoding of one stored favorite value back into the FavoriteSet data
model (the JS assignment is untyped; this decode is the identity on
every value saveFavorites writes). -/
def favUnitOfJson : Json → FavUnit
  | Json.obj kvs => { id := strField kvs "id", name := strField kvs "name",
                      points := numField kvs "points" }
  | _ => { id := "", name := "", points := JsNum.nan }

/-- Decoding of a parsed favorites value back into the FavoriteSet data
model. -/
def favsOfJson : Json → Favs
  | Json.obj kvs => kvs.map (fun p => (p.1, favUnitOfJson p.2))
  | _ => []

/-- Embedding of loadFavorites (app.js lines 274-285): read the
favorites key; when absent (or the empty, falsy string) keep the current
favorites; when JSON.parse succeeds take its result; when it throws the
catch block resets favorites to the empty object.  The function is
total: no exception escapes. -/
def loadFavorites (stored : Option String) (favorites : Favs) : Favs :=
  match stored with
  | none => favorites
  | some s =>
    if s = "" then favorites
    else
      match parseJson s with
      | some j => favsOfJson j
      | none => []

/-- localStorage: a string key-value store with unique keys. -/
abbrev Storage : Type := List (String × String)

/-- localStorage.getItem. -/
def storageGet (st : Storage) (k : String) : Option String :=
  (st.find? (fun p => p.1 == k)).map (fun p => p.2)

/-- localStorage.setItem: overwrite the binding in place or append. -/
def storageSet : Storage → String → String → Storage
  | [], k, v => [(k, v)]
  | (k0, v0) :: rest, k, v =>
    if k0 == k then (k0, v) :: rest else (k0, v0) :: storageSet rest k v

/-- The mutable state of the page: the module-level armyList and
favorites variables, the browser storage, and the three crusade tracker
input fields. -/
structure AppState where
  armyList : List RosterUnit
  favorites : Favs
  storage : Storage
  crusadeBattleHonors : String
  crusadeXp : String
  crusadeRp : String
deriving Repr

/-- The add-to-army-btn branch of the document click handler (app.js
lines 368-379): addUnitToArmy with the card data attributes; no storage
access. -/
def addClick (unitId unitName unitPoints : String) (st : AppState) : AppState :=
  { st with armyList := addUnitToArmy unitId unitName unitPoints st.armyList }

/-- The remove-from-army-btn branch of the document click handler
(app.js lines 382-389): removeUnitFromArmy; no storage access. -/
def removeClick (unitId : String) (st : AppState) : AppState :=
  { st with armyList := removeUnitFromArmy unitId st.armyList }

/-- The favorite-btn branch of the document click handler (app.js lines
392-414): toggle the favorite, then saveFavorites writes the favorites
key synchronously before the handler returns. -/
def favClick (unitId unitName unitPoints : String) (st : AppState) : AppState :=
  { st with
    favorites := (toggleFavorite unitId unitName unitPoints st.favorites).2,
    storage := storageSet st.storage "favorites"
      (stringifyFavs (toggleFavorite unitId unitName unitPoints st.favorites).2) }

/-- The save-crusade click handler (app.js lines 418-427): stringify the
three input values and write them under the crusadeData key. -/
def saveCrusadeClick (st : AppState) : AppState :=
  { st with
    storage := storageSet st.storage "crusadeData"
      (jsonStringify (Json.obj
        [("battleHonors", Json.str st.crusadeBattleHonors),
         ("xp", Json.str st.crusadeXp),
         ("rp", Json.str st.crusadeRp)])) }

/-- The state-mutating user events of the page (the remaining handlers,
tab switching and faction selection, touch only the DOM and the fetch
cache, never this state or the storage). -/
inductive Event where
  | add (unitId unitName unitPoints : String) : Event
  | remove (unitId : String) : Event
  | favorite (unitId unitName unitPoints : String) : Event
  | saveCrusade : Event

/-- One dispatch of a state-mutating event. -/
def step : Event → AppState → AppState
  | Event.add i n p, st => addClick i n p st
  | Event.remove i, st => removeClick i st
  | Event.favorite i n p, st => favClick i n p st
  | Event.saveCrusade, st => saveCrusadeClick st

/-- Property access v.k on a parsed JSON value followed by the
falsy-default coercion x || T(""): on null the access throws a TypeError;
on an object a string field is returned (empty when absent or falsy); on
any other value the access yields undefined, hence the default. -/
def fieldOrEmpty (j : Json) (k : String) : Except String String :=
  match j with
  | Json.null => Except.error "TypeError"
  | Json.obj kvs => Except.ok (strField kvs k)
  | _ => Except.ok ""

/-- Embedding of loadCrusadeData (app.js lines 430-438): read the
crusadeData key; when present and truthy, JSON.parse it with no
try/catch, so a parse failure throws out of the function, and so does a
property access on a parsed null; otherwise fill the three inputs from
the parsed fields with empty-string defaults. -/
def loadCrusadeData (stored : Option String) :
    Except String (String × String × String) :=
  match stored with
  | none => Except.ok ("", "", "")
  | some s =>
    if s = "" then Except.ok ("", "", "")
    else
      match parseJson s with
      | none => Except.error "SyntaxError"
      | some j => do
        let bh ← fieldOrEmpty j "battleHonors"
        let xp ← fieldOrEmpty j "xp"
        let rp ← fieldOrEmpty j "rp"
        Except.ok (bh, xp, rp)

/-- The state at session start (DOMContentLoaded, app.js lines 441-450):
armyList and favorites begin as the module-level empty values (lines
20-23), then loadFavorites reads the favorites key; the crusade inputs
are filled by loadCrusadeData when it does not throw. -/
def initialAppState (storage : Storage) : AppState :=
  let crusade := (loadCrusadeData (storageGet storage "crusadeData")).toOption.getD ("", "", "")
  { armyList := [],
    favorites := loadFavorites (storageGet storage "favorites") [],
    storage := storage,
    crusadeBattleHonors := crusade.1,
    crusadeXp := crusade.2.1,
    crusadeRp := crusade.2.2 }

/-!
Lemmas: decimal digit characters and the parseInt round trip.
-/

theorem digitVal_digitToChar {d : Nat} (h : d < 10) :
    digitVal (digitToChar d) = d := by
  interval_cases d <;> rfl

theorem isAsciiDigit_digitToChar {d : Nat} (h : d < 10) :
    isAsciiDigit (digitToChar d) = true := by
  interval_cases d <;> rfl

theorem isAsciiDigit_toNat {c : Char} (h : isAsciiDigit c = true) :
    48 ≤ c.toNat ∧ c.toNat ≤ 57 := by
  simpa [isAsciiDigit, Nat.decLe] using h

theorem digit_ne {c : Char} (h : isAsciiDigit c = true) (d : Char)
    (hd : d.toNat < 48 ∨ 57 < d.toNat) : c ≠ d := by
  intro he
  subst he
  obtain ⟨h1, h2⟩ := isAsciiDigit_toNat h
  omega

theorem isJsWs_of_digit {c : Char} (h : isAsciiDigit c = true) :
    isJsWs c = false := by
  have h1 := digit_ne h ' ' (by decide)
  have h2 := digit_ne h '\t' (by decide)
  have h3 := digit_ne h '\n' (by decide)
  have h4 := digit_ne h '\r' (by decide)
  simp [isJsWs, h1, h2, h3, h4]

theorem takeWhile_all {p : Char → Bool} {l : List Char}
    (h : ∀ c ∈ l, p c = true) : l.takeWhile p = l := by
  induction l with
  | nil => rfl
  | cons c cs ih =>
    simp only [List.takeWhile_cons, h c (by simp)]
    simp [ih (fun c hc => h c (by simp [hc]))]

theorem natChars_ne_nil (m : Nat) : natChars m ≠ [] := by
  unfold natChars
  by_cases h : m = 0
  · simp [h]
  · simp only [if_neg h]
    simp [Nat.digits_ne_nil_iff_ne_zero.mpr h]

theorem natChars_all_digits (m : Nat) :
    ∀ c ∈ natChars m, isAsciiDigit c = true := by
  intro c hc
  unfold natChars at hc
  by_cases h : m = 0
  · simp [h] at hc
    subst hc
    decide
  · simp only [if_neg h, List.mem_map, List.mem_reverse] at hc
    obtain ⟨d, hd, rfl⟩ := hc
    exact isAsciiDigit_digitToChar (Nat.digits_lt_base (by norm_num) hd)

theorem digitsVal_append_singleton (xs : List Char) (c : Char) :
    digitsVal (xs ++ [c]) = 10 * digitsVal xs + digitVal c := by
  unfold digitsVal
  rw [List.foldl_append]
  rfl

theorem digitsVal_rev_map (L : List Nat) (h : ∀ d ∈ L, d < 10) :
    digitsVal ((L.reverse).map digitToChar) = Nat.ofDigits 10 L := by
  induction L with
  | nil => rfl
  | cons d L ih =>
    rw [List.reverse_cons, List.map_append]
    simp only [List.map_cons, List.map_nil]
    rw [digitsVal_append_singleton, ih (fun x hx => h x (by simp [hx])),
      digitVal_digitToChar (h d (by simp)), Nat.ofDigits_cons]
    omega

theorem digitsVal_natChars (m : Nat) : digitsVal (natChars m) = m := by
  by_cases h : m = 0
  · subst h; rfl
  · unfold natChars
    rw [if_neg h,
      digitsVal_rev_map _ (fun d hd => Nat.digits_lt_base (by norm_num) hd),
      Nat.ofDigits_digits]

theorem parseIntJs_natChars (m : Nat) : parseIntJs ⟨natChars m⟩ = JsNum.int m := by
  obtain ⟨c, cs, hcons⟩ := List.exists_cons_of_ne_nil (natChars_ne_nil m)
  have hall := natChars_all_digits m
  have hc : isAsciiDigit c = true := hall c (by rw [hcons]; simp)
  unfold parseIntJs
  simp only [hcons, List.dropWhile_cons, isJsWs_of_digit hc, Bool.false_eq_true,
    if_false]
  rw [if_neg (digit_ne hc '-' (by decide)), if_neg (digit_ne hc '+' (by decide))]
  have htake : (c :: cs).takeWhile isAsciiDigit = c :: cs := by
    apply takeWhile_all
    intro x hx
    exact hall x (by rw [hcons]; exact hx)
  simp only [htake, List.isEmpty_cons, Bool.false_eq_true, if_false]
  rw [← hcons, digitsVal_natChars]

theorem parseIntJs_intToStr (n : Int) : parseIntJs (intToStr n) = JsNum.int n := by
  unfold intToStr intChars
  by_cases h : n < 0
  · rw [if_pos h]
    have hne : natChars n.natAbs ≠ [] := natChars_ne_nil _
    have hws : isJsWs '-' = false := by decide
    have htake : (natChars n.natAbs).takeWhile isAsciiDigit = natChars n.natAbs :=
      takeWhile_all (natChars_all_digits _)
    unfold parseIntJs
    simp only [List.dropWhile_cons, hws, Bool.false_eq_true, if_false, htake,
      List.isEmpty_eq_true, hne, if_true, digitsVal_natChars]
    congr 1
    omega
  · rw [if_neg h, parseIntJs_natChars]
    congr 1
    omega

/-!
Lemmas: the points total and removal from the army list.
-/

theorem updatePointsTotal_append (army : List RosterUnit) (u : RosterUnit) :
    updatePointsTotal (army ++ [u]) = jsAdd (updatePointsTotal army) u.points := by
  unfold updatePointsTotal
  rw [List.foldl_append]
  rfl

theorem updatePointsTotal_add (i nm : String) (p : Int) (army : List RosterUnit) :
    updatePointsTotal (addUnitToArmy i nm (intToStr p) army)
      = jsAdd (updatePointsTotal army) (JsNum.int p) := by
  unfold addUnitToArmy
  rw [updatePointsTotal_append]
  simp [parseIntJs_intToStr]

theorem totalPoints_foldl (units : List (String × String × Int)) :
    ∀ (army : List RosterUnit) (s : Int), updatePointsTotal army = JsNum.int s →
      updatePointsTotal
          (units.foldl (fun a t => addUnitToArmy t.1 t.2.1 (intToStr t.2.2) a) army)
        = JsNum.int (s + (units.map (fun t => t.2.2)).sum) := by
  induction units with
  | nil =>
    intro army s h
    simpa using h
  | cons t ts ih =>
    intro army s h
    simp only [List.foldl_cons, List.map_cons, List.sum_cons]
    rw [ih _ (s + t.2.2) (by rw [updatePointsTotal_add, h]; rfl)]
    congr 1
    ring

theorem removeUnitFromArmy_eraseP (unitId : String) (army : List RosterUnit) :
    removeUnitFromArmy unitId army = army.eraseP (fun u => u.id == unitId) := by
  induction army with
  | nil => rfl
  | cons u us ih =>
    unfold removeUnitFromArmy
    rw [List.findIdx?_cons]
    by_cases h : (u.id == unitId) = true
    · simp [h]
    · rw [if_neg h, List.findIdx?_succ]
      rw [List.eraseP_cons_of_neg (by simpa using h)]
      cases hf : us.findIdx? (fun u => u.id == unitId) with
      | none =>
        simp only [Option.map_none']
        rw [List.eraseP_eq_self_iff.mpr]
        intro x hx
        have := List.findIdx?_eq_none_iff.mp hf x hx
        simp [this]
      | some i =>
        simp only [Option.map_some']
        have hres : removeUnitFromArmy unitId us = us.take i ++ us.drop (i + 1) := by
          unfold removeUnitFromArmy
          rw [hf]
        rw [← ih, hres]
        simp [List.take_succ_cons, List.drop_succ_cons]

theorem removeOccurred_any (unitId : String) (army : List RosterUnit) :
    removeOccurred unitId army = army.any (fun u => u.id == unitId) := by
  unfold removeOccurred
  exact List.findIdx?_isSome

theorem removeUnitFromArmy_of_absent (unitId : String) (army : List RosterUnit)
    (h : removeOccurred unitId army = false) :
    removeUnitFromArmy unitId army = army := by
  unfold removeOccurred at h
  unfold removeUnitFromArmy
  cases hf : army.findIdx? (fun u => u.id == unitId) with
  | none => rfl
  | some i => rw [hf] at h; simp at h

/-!
Lemmas: the favorites association list.
-/

theorem favLookup_nil (k : String) : favLookup [] k = none := rfl

theorem favLookup_cons (k0 : String) (v : FavUnit) (l : Favs) (k : String) :
    favLookup ((k0, v) :: l) k = if k0 == k then some v else favLookup l k := by
  unfold favLookup
  rw [List.find?_cons]
  by_cases h : (k0 == k) = true
  · simp [h]
  · simp [h]

theorem favLookup_append (l1 l2 : Favs) (k : String) :
    favLookup (l1 ++ l2) k = (favLookup l1 k).or (favLookup l2 k) := by
  induction l1 with
  | nil => simp [favLookup_nil]
  | cons p l1 ih =>
    rw [List.cons_append, ← p.eta, favLookup_cons, favLookup_cons]
    by_cases h : (p.1 == k) = true
    · simp [h]
    · simp [h, ih]

theorem favDelete_cons (k0 : String) (v : FavUnit) (l : Favs) (k : String) :
    favDelete ((k0, v) :: l) k
      = if k0 == k then favDelete l k else (k0, v) :: favDelete l k := by
  unfold favDelete
  rw [List.filter_cons]
  by_cases h : (k0 == k) = true
  · simp [h]
  · simp [h]

theorem favLookup_favDelete_self (l : Favs) (k : String) :
    favLookup (favDelete l k) k = none := by
  induction l with
  | nil => rfl
  | cons p l ih =>
    rw [← p.eta, favDelete_cons]
    by_cases h : (p.1 == k) = true
    · rw [if_pos h]
      exact ih
    · rw [if_neg h, favLookup_cons, if_neg h]
      exact ih

theorem favLookup_favDelete_ne (l : Favs) (k id0 : String) (h : k ≠ id0) :
    favLookup (favDelete l id0) k = favLookup l k := by
  induction l with
  | nil => rfl
  | cons p l ih =>
    rw [← p.eta, favDelete_cons]
    by_cases hp : (p.1 == id0) = true
    · have hk : (p.1 == k) = false := by
        have he : p.1 = id0 := by simpa using hp
        subst he
        simpa using fun he2 => h he2.symm
      rw [if_pos hp, ih, favLookup_cons, if_neg (by simp [hk])]
    · rw [if_neg hp, favLookup_cons, favLookup_cons, ih]

theorem favDelete_of_lookup_none (l : Favs) (k : String)
    (h : favLookup l k = none) : favDelete l k = l := by
  have hf : l.find? (fun p => p.1 == k) = none := by
    unfold favLookup at h
    exact Option.map_eq_none'.mp h
  unfold favDelete
  rw [List.filter_eq_self]
  intro p hp
  have h2 := List.find?_eq_none.mp hf p hp
  simpa using h2

theorem favDelete_append (l1 l2 : Favs) (k : String) :
    favDelete (l1 ++ l2) k = favDelete l1 k ++ favDelete l2 k := by
  unfold favDelete
  exact List.filter_append l1 l2

theorem favLookup_none_of_not_mem_keys (l : Favs) (k : String)
    (h : k ∉ l.map Prod.fst) : favLookup l k = none := by
  induction l with
  | nil => rfl
  | cons p l ih =>
    rw [← p.eta, favLookup_cons]
    rw [if_neg]
    · exact ih (fun hm => h (by simp [hm]))
    · simp only [beq_iff_eq]
      intro he
      exact h (by simp [he])

theorem favDelete_perm (l : Favs) (k : String) (e : FavUnit)
    (hnd : (l.map Prod.fst).Nodup) (h : favLookup l k = some e) :
    (favDelete l k ++ [(k, e)]).Perm l := by
  induction l with
  | nil => simp [favLookup_nil] at h
  | cons p l ih =>
    rw [← p.eta, favLookup_cons] at h
    rw [← p.eta, List.map_cons, List.nodup_cons] at hnd
    rw [← p.eta, favDelete_cons]
    by_cases hp : (p.1 == k) = true
    · have hk : p.1 = k := by simpa using hp
      rw [if_pos hp] at h
      injection h with h
      subst h
      rw [if_pos hp]
      have hnone : favLookup l k = none := by
        apply favLookup_none_of_not_mem_keys
        rw [← hk]
        exact hnd.1
      rw [favDelete_of_lookup_none l k hnone, hk]
      exact List.perm_append_singleton _ _
    · rw [if_neg hp] at h
      rw [if_neg hp, List.cons_append]
      exact (ih hnd.2 h).cons _

/-!
Lemmas: the storage key-value store.
-/

theorem storageGet_cons (k0 v0 : String) (st : Storage) (k : String) :
    storageGet ((k0, v0) :: st) k
      = if k0 == k then some v0 else storageGet st k := by
  unfold storageGet
  rw [List.find?_cons]
  by_cases h : (k0 == k) = true
  · simp [h]
  · simp [h]

theorem storageGet_set_self (st : Storage) (k v : String) :
    storageGet (storageSet st k v) k = some v := by
  induction st with
  | nil =>
    show storageGet [(k, v)] k = some v
    rw [storageGet_cons, if_pos (by simp)]
  | cons p st ih =>
    rw [← p.eta]
    show storageGet
      (if p.1 == k then (p.1, v) :: st else (p.1, p.2) :: storageSet st k v) k = some v
    by_cases h : (p.1 == k) = true
    · rw [if_pos h, storageGet_cons, if_pos h]
    · rw [if_neg h, storageGet_cons, if_neg h]
      exact ih

theorem storageGet_set_ne (st : Storage) (k v k2 : String) (h : k2 ≠ k) :
    storageGet (storageSet st k v) k2 = storageGet st k2 := by
  have hne : (k == k2) = false := by
    simpa using fun he => h he.symm
  induction st with
  | nil =>
    show storageGet [(k, v)] k2 = storageGet [] k2
    rw [storageGet_cons, if_neg (by simp [hne])]
  | cons p st ih =>
    rw [← p.eta]
    show storageGet
        (if p.1 == k then (p.1, v) :: st else (p.1, p.2) :: storageSet st k v) k2
      = storageGet ((p.1, p.2) :: st) k2
    by_cases hp : (p.1 == k) = true
    · have hp2 : (p.1 == k2) = false := by
        have he : p.1 = k := by simpa using hp
        subst he
        simpa using fun he2 => h he2.symm
      rw [if_pos hp, storageGet_cons, storageGet_cons, if_neg (by simp [hp2]),
        if_neg (by simp [hp2])]
    · rw [if_neg hp, storageGet_cons, storageGet_cons, ih]

/-- C7: after every single toggleFavorite operation the string stored
under the favorites key is the JSON serialization of the in-memory
favorites mapping; the write happens inside the same click dispatch, so
agreement between the stored value and the mapping holds after every
toggle, whatever the state before it. -/
theorem favorites_writeThrough (unitId unitName unitPoints : String) (st : AppState) :
    storageGet ((favClick unitId unitName unitPoints st).storage) "favorites"
      = some (stringifyFavs ((favClick unitId unitName unitPoints st).favorites)) := by
  unfold favClick
  exact storageGet_set_self _ _ _

/-- C8: the program writes the storage only under the favorites and
crusadeData keys; the add and remove roster events perform no storage
write at all, and the roster starts empty in every session. -/
theorem storage_frame :
    (∀ storage, (initialAppState storage).armyList = []) ∧
    (∀ i n p st, (step (Event.add i n p) st).storage = st.storage) ∧
    (∀ i st, (step (Event.remove i) st).storage = st.storage) ∧
    (∀ e st k, k ≠ "favorites" → k ≠ "crusadeData" →
      storageGet ((step e st).storage) k = storageGet st.storage k) := by
  refine ⟨fun _ => rfl, fun _ _ _ _ => rfl, fun _ _ => rfl, ?_⟩
  intro e st k h1 h2
  cases e with
  | add i n p => rfl
  | remove i => rfl
  | favorite i n p => exact storageGet_set_ne _ _ _ _ h1
  | saveCrusade => exact storageGet_set_ne _ _ _ _ h2

/-- Witness for storage_frame at a concrete event, state and key. -/
theorem storage_frame_witness :
    storageGet ((step (Event.favorite "u1" "A" "5") (initialAppState [])).storage) "roster"
      = storageGet (initialAppState []).storage "roster" :=
  storage_frame.2.2.2 (Event.favorite "u1" "A" "5") (initialAppState []) "roster"
    (by decide) (by decide)

/-!
Lemmas: round trip of the JSON string escaping.
-/

theorem hexVal?_hexDigitChar {d : Nat} (h : d < 16) :
    hexVal? (hexDigitChar d) = some d := by
  interval_cases d <;> rfl

theorem escChars_cons (c : Char) (cs : List Char) :
    escChars (c :: cs) = escChar c ++ escChars cs := rfl

theorem parseStrChars_escChars (cs rest : List Char) :
    parseStrChars (escChars cs ++ '"' :: rest) = some (cs, rest) := by
  induction cs with
  | nil =>
    show parseStrChars ('"' :: rest) = some ([], rest)
    unfold parseStrChars
    simp
  | cons c cs ih =>
    rw [escChars_cons, List.append_assoc]
    unfold escChar
    by_cases h1 : c = '"'
    · rw [if_pos h1, h1]
      show parseStrChars ('\\' :: '"' :: (escChars cs ++ '"' :: rest))
        = some ('"' :: cs, rest)
      unfold parseStrChars
      simp [ih]
    · rw [if_neg h1]
      by_cases h2 : c = '\\'
      · rw [if_pos h2, h2]
        show parseStrChars ('\\' :: '\\' :: (escChars cs ++ '"' :: rest))
          = some ('\\' :: cs, rest)
        unfold parseStrChars
        simp [ih]
      · rw [if_neg h2]
        by_cases h3 : c.toNat < 32
        · rw [if_pos h3]
          show parseStrChars
              ('\\' :: 'u' :: '0' :: '0' :: hexDigitChar (c.toNat / 16)
                :: hexDigitChar (c.toNat % 16) :: (escChars cs ++ '"' :: rest))
            = some (c :: cs, rest)
          unfold parseStrChars
          have d1 : c.toNat / 16 < 16 := by omega
          have d2 : c.toNat % 16 < 16 := by omega
          simp only [hexVal?_hexDigitChar d1, hexVal?_hexDigitChar d2,
            show hexVal? '0' = some 0 from rfl]
          simp [ih]
          have hv : c.toNat / 16 * 16 + c.toNat % 16 = c.toNat := by omega
          rw [hv, Char.ofNat_toNat]
        · rw [if_neg h3]
          show parseStrChars (c :: (escChars cs ++ '"' :: rest)) = some (c :: cs, rest)
          unfold parseStrChars
          rw [if_neg h1, if_neg h2]
          simp [h3, ih]

/-!
Lemmas: round trip of JSON integer number literals.
-/

/-- Characters that may follow a complete number literal without
extending it: end of input, or a head that is no digit, decimal point or
exponent marker. -/
def NumStop : List Char → Prop
  | [] => True
  | c :: _ => isAsciiDigit c = false ∧ c ≠ '.' ∧ c ≠ 'e' ∧ c ≠ 'E'

theorem takeWhile_all_append {p : Char → Bool} {l1 : List Char} (l2 : List Char)
    (h : ∀ c ∈ l1, p c = true) :
    (l1 ++ l2).takeWhile p = l1 ++ l2.takeWhile p := by
  induction l1 with
  | nil => simp
  | cons c cs ih =>
    rw [List.cons_append, List.takeWhile_cons, h c (by simp)]
    simp [ih (fun x hx => h x (by simp [hx]))]

theorem dropWhile_all_append {p : Char → Bool} {l1 : List Char} (l2 : List Char)
    (h : ∀ c ∈ l1, p c = true) :
    (l1 ++ l2).dropWhile p = l2.dropWhile p := by
  induction l1 with
  | nil => simp
  | cons c cs ih =>
    rw [List.cons_append, List.dropWhile_cons, h c (by simp)]
    simp only [if_true]
    exact ih (fun x hx => h x (by simp [hx]))

theorem takeWhile_digits_stop {rest : List Char} (h : NumStop rest) :
    rest.takeWhile isAsciiDigit = [] := by
  cases rest with
  | nil => rfl
  | cons c cs =>
    obtain ⟨h1, _⟩ := h
    rw [List.takeWhile_cons, h1]
    rfl

theorem dropWhile_digits_stop {rest : List Char} (h : NumStop rest) :
    rest.dropWhile isAsciiDigit = rest := by
  cases rest with
  | nil => rfl
  | cons c cs =>
    obtain ⟨h1, _⟩ := h
    rw [List.dropWhile_cons, h1]
    rfl

theorem parseFracExp_stop {rest : List Char} (h : NumStop rest) :
    parseFracExp rest = some (true, rest) := by
  have hdot : rest.head? ≠ some '.' := by
    cases rest with
    | nil => simp
    | cons c cs => simpa using h.2.1
  have he : rest.head? ≠ some 'e' := by
    cases rest with
    | nil => simp
    | cons c cs => simpa using h.2.2.1
  have hE : rest.head? ≠ some 'E' := by
    cases rest with
    | nil => simp
    | cons c cs => simpa using h.2.2.2
  unfold parseFracExp parseExpOpt
  rw [if_neg hdot, if_neg (by simp [he, hE])]

theorem digitToChar_ne_zero {d : Nat} (h : d < 10) (h0 : d ≠ 0) :
    digitToChar d ≠ '0' := by
  interval_cases d
  · exact absurd rfl h0
  all_goals decide

theorem natChars_shape {m : Nat} (hm : m ≠ 0) :
    ∃ c cs, natChars m = c :: cs ∧ c ≠ '0' := by
  have hne : Nat.digits 10 m ≠ [] := Nat.digits_ne_nil_iff_ne_zero.mpr hm
  have hrev : (Nat.digits 10 m).reverse ≠ [] := by simpa using hne
  obtain ⟨d0, ds, hds⟩ := List.exists_cons_of_ne_nil hrev
  refine ⟨digitToChar d0, ds.map digitToChar, ?_, ?_⟩
  · unfold natChars
    rw [if_neg hm, hds, List.map_cons]
  · have h1 : (Nat.digits 10 m).getLast? = some d0 := by
      rw [← List.head?_reverse, hds]
      rfl
    have h2 : (Nat.digits 10 m).getLast? = some ((Nat.digits 10 m).getLast hne) :=
      List.getLast?_eq_getLast _ hne
    have hd0 : d0 = (Nat.digits 10 m).getLast hne := by
      rw [h1] at h2
      exact Option.some_injective _ h2
    have hlast := Nat.getLast_digit_ne_zero 10 hm
    have hmem : d0 ∈ Nat.digits 10 m := by
      rw [← List.mem_reverse, hds]
      simp
    exact digitToChar_ne_zero (Nat.digits_lt_base (by norm_num) hmem)
      (by rw [hd0]; exact hlast)

theorem parseNum_natChars (m : Nat) (rest : List Char) (h : NumStop rest) :
    parseNum (natChars m ++ rest) = some (Json.num m, rest) := by
  by_cases hm : m = 0
  · subst hm
    show parseNum ('0' :: rest) = some (Json.num 0, rest)
    simp [parseNum, parseFracExp_stop h, digitsVal, digitVal,
      show isAsciiDigit '0' = true from rfl]
  · obtain ⟨c, cs, hcons, hc0⟩ := natChars_shape hm
    have hall := natChars_all_digits m
    have hc : isAsciiDigit c = true := hall c (by rw [hcons]; simp)
    have hcsall : ∀ x ∈ cs, isAsciiDigit x = true := fun x hx =>
      hall x (by rw [hcons]; simp [hx])
    have hd : digitsVal (c :: cs) = m := by
      rw [show c :: cs = natChars m from hcons.symm, digitsVal_natChars]
    unfold parseNum
    rw [hcons, List.cons_append]
    rw [if_neg (by simp [(digit_ne hc '-' (by decide))])]
    simp only
    rw [if_neg (by simp [hc])]
    rw [if_neg hc0]
    simp only [takeWhile_all_append rest hcsall, dropWhile_all_append rest hcsall,
      takeWhile_digits_stop h, dropWhile_digits_stop h, List.append_nil]
    rw [parseFracExp_stop h]
    simp [hd]

theorem parseNum_intChars (n : Int) (rest : List Char) (h : NumStop rest) :
    parseNum (intChars n ++ rest) = some (Json.num n, rest) := by
  unfold intChars
  by_cases hn : n < 0
  · rw [if_pos hn, List.cons_append]
    have hm : n.natAbs ≠ 0 := by omega
    obtain ⟨c, cs, hcons, hc0⟩ := natChars_shape hm
    have hall := natChars_all_digits n.natAbs
    have hc : isAsciiDigit c = true := hall c (by rw [hcons]; simp)
    have hcsall : ∀ x ∈ cs, isAsciiDigit x = true := fun x hx =>
      hall x (by rw [hcons]; simp [hx])
    have hd : digitsVal (c :: cs) = n.natAbs := by
      rw [show c :: cs = natChars n.natAbs from hcons.symm, digitsVal_natChars]
    have hcast : -((n.natAbs : Int)) = n := by omega
    have hcabs : -|n| = n := by rw [abs_of_neg hn]; ring
    unfold parseNum
    rw [if_pos (by simp)]
    simp only [List.tail_cons]
    rw [hcons, List.cons_append]
    simp only
    rw [if_neg (by simp [hc])]
    rw [if_neg hc0]
    simp only [takeWhile_all_append rest hcsall, dropWhile_all_append rest hcsall,
      takeWhile_digits_stop h, dropWhile_digits_stop h, List.append_nil]
    rw [parseFracExp_stop h]
    simp [hd, hcast, hcabs]
  · rw [if_neg hn, parseNum_natChars _ _ h]
    have hcast : ((n.toNat : Int)) = n := by omega
    rw [hcast]

/-!
Lemmas: round trip of JSON values through parseValue.
-/

theorem parseValue_null (fuel : Nat) (rest : List Char) :
    parseValue (fuel + 1) (jsonChars Json.null ++ rest) = some (Json.null, rest) := by
  show parseValue (Nat.succ fuel) ('n' :: 'u' :: 'l' :: 'l' :: rest)
    = some (Json.null, rest)
  unfold parseValue
  simp [List.dropWhile_cons, List.take_succ_cons, isJsWs]

theorem parseValue_str (s : String) (fuel : Nat) (rest : List Char) :
    parseValue (fuel + 1) (jsonChars (Json.str s) ++ rest) = some (Json.str s, rest) := by
  have hch : jsonChars (Json.str s) ++ rest
      = '"' :: (escChars s.data ++ '"' :: rest) := by
    show ('"' :: (escChars s.data ++ ['"'])) ++ rest = _
    simp
  rw [hch]
  show parseValue (Nat.succ fuel) ('"' :: (escChars s.data ++ '"' :: rest))
    = some (Json.str s, rest)
  unfold parseValue
  simp only [List.dropWhile_cons, show isJsWs '"' = false from rfl,
    Bool.false_eq_true, if_false]
  rw [if_neg (by simp [List.take_succ_cons]), if_neg (by simp [List.take_succ_cons]),
    if_neg (by simp [List.take_succ_cons]), if_pos (by simp)]
  simp [parseStrChars_escChars]

theorem intChars_shape (n : Int) :
    ∃ c cs, intChars n = c :: cs ∧ (isAsciiDigit c = true ∨ c = '-') := by
  unfold intChars
  by_cases hn : n < 0
  · exact ⟨'-', natChars n.natAbs, by rw [if_pos hn], Or.inr rfl⟩
  · rw [if_neg hn]
    obtain ⟨c, cs, hcons⟩ := List.exists_cons_of_ne_nil (natChars_ne_nil n.toNat)
    exact ⟨c, cs, hcons,
      Or.inl (natChars_all_digits _ c (by rw [hcons]; simp))⟩

theorem parseValue_num (n : Int) (fuel : Nat) (rest : List Char) (h : NumStop rest) :
    parseValue (fuel + 1) (intChars n ++ rest) = some (Json.num n, rest) := by
  obtain ⟨c, cs, hcons, hcp⟩ := intChars_shape n
  have hfacts : c ≠ 'n' ∧ c ≠ 't' ∧ c ≠ 'f' ∧ c ≠ '"' ∧ c ≠ '[' ∧ c ≠ '\x7b'
      ∧ isJsWs c = false := by
    rcases hcp with hd | hd
    · exact ⟨digit_ne hd _ (by decide), digit_ne hd _ (by decide),
        digit_ne hd _ (by decide), digit_ne hd _ (by decide),
        digit_ne hd _ (by decide), digit_ne hd _ (by decide), isJsWs_of_digit hd⟩
    · subst hd
      refine ⟨by decide, by decide, by decide, by decide, by decide, by decide, rfl⟩
  obtain ⟨h1, h2, h3, h4, h5, h6, h7⟩ := hfacts
  rw [hcons, List.cons_append]
  show parseValue (Nat.succ fuel) (c :: (cs ++ rest)) = some (Json.num n, rest)
  unfold parseValue
  simp only [List.dropWhile_cons, h7, Bool.false_eq_true, if_false]
  rw [if_neg (by simp [List.take_succ_cons, h1]),
    if_neg (by simp [List.take_succ_cons, h2]),
    if_neg (by simp [List.take_succ_cons, h3]),
    if_neg (by simp [h4]), if_neg (by simp [h5]), if_neg (by simp [h6])]
  rw [← List.cons_append, ← hcons]
  exact parseNum_intChars n rest h

theorem parseMembers_succ (fuel : Nat) (cs : List Char) :
    parseMembers (Nat.succ fuel) cs
      = (let t := cs.dropWhile isJsWs
         if t.head? = some '"' then
           match parseStrChars t.tail with
           | none => none
           | some (k, rest1) =>
             let t1 := rest1.dropWhile isJsWs
             if t1.head? = some ':' then
               match parseValue fuel t1.tail with
               | none => none
               | some (v, rest3) =>
                 let t3 := rest3.dropWhile isJsWs
                 if t3.head? = some ',' then
                   (parseMembers fuel t3.tail).map (fun p => ((⟨k⟩, v) :: p.1, p.2))
                 else if t3.head? = some '\x7d' then some ([(⟨k⟩, v)], t3.tail)
                 else none
             else none
         else none) := rfl

theorem parseMembers_key_colon (k : String) (vch sep : List Char) (fuel : Nat)
    (v : Json) (hval : parseValue fuel (vch ++ sep) = some (v, sep)) :
    parseMembers (fuel + 1) ('"' :: (escChars k.data ++ '"' :: ':' :: vch) ++ sep)
      = (let t3 := sep.dropWhile isJsWs;
         if t3.head? = some ',' then
           (parseMembers fuel t3.tail).map (fun p => ((k, v) :: p.1, p.2))
         else if t3.head? = some '\x7d' then some ([(k, v)], t3.tail)
         else none) := by
  rw [show (fuel + 1) = Nat.succ fuel from rfl, parseMembers_succ]
  simp only [List.cons_append, List.dropWhile_cons, show isJsWs '"' = false from rfl,
    Bool.false_eq_true, if_false]
  rw [if_pos (by simp)]
  simp only [List.tail_cons, List.head?_cons]
  have hstr : parseStrChars ((escChars k.data ++ '"' :: ':' :: vch) ++ sep)
      = some (k.data, ':' :: (vch ++ sep)) := by
    rw [List.append_assoc]
    simp only [List.cons_append]
    exact parseStrChars_escChars k.data (':' :: (vch ++ sep))
  rw [hstr]
  simp only [List.dropWhile_cons, show isJsWs ':' = false from rfl,
    Bool.false_eq_true, if_false, List.head?_cons]
  simp only [if_true, List.tail_cons]
  rw [hval]

theorem parseMembers_last (k : String) (v : Json) (vch rest : List Char) (fuel : Nat)
    (hval : parseValue fuel (vch ++ '\x7d' :: rest) = some (v, '\x7d' :: rest)) :
    parseMembers (fuel + 1) ('"' :: (escChars k.data ++ '"' :: ':' :: vch) ++ '\x7d' :: rest)
      = some ([(k, v)], rest) := by
  rw [parseMembers_key_colon k vch ('\x7d' :: rest) fuel v hval]
  simp [List.dropWhile_cons, isJsWs]

theorem parseMembers_cons (k : String) (v : Json) (vch mrest : List Char) (fuel : Nat)
    (hval : parseValue fuel (vch ++ ',' :: mrest) = some (v, ',' :: mrest)) :
    parseMembers (fuel + 1) ('"' :: (escChars k.data ++ '"' :: ':' :: vch) ++ ',' :: mrest)
      = (parseMembers fuel mrest).map (fun p => ((k, v) :: p.1, p.2)) := by
  rw [parseMembers_key_colon k vch (',' :: mrest) fuel v hval]
  simp [List.dropWhile_cons, isJsWs]

theorem parseValue_obj (fuel : Nat) (mch rest : List Char) (kvs : List (String × Json))
    (hhead : mch.head? = some '"')
    (hm : parseMembers fuel (mch ++ '\x7d' :: rest) = some (kvs, rest)) :
    parseValue (fuel + 1) ('\x7b' :: (mch ++ '\x7d' :: rest))
      = some (Json.obj kvs, rest) := by
  show parseValue (Nat.succ fuel) _ = _
  unfold parseValue
  simp only [List.dropWhile_cons, show isJsWs '\x7b' = false from rfl,
    Bool.false_eq_true, if_false]
  rw [if_neg (by simp [List.take_succ_cons]), if_neg (by simp [List.take_succ_cons]),
    if_neg (by simp [List.take_succ_cons]), if_neg (by simp), if_neg (by simp),
    if_pos (by simp)]
  obtain ⟨m1, mtail, hmch⟩ : ∃ m1 mtail, mch = m1 :: mtail := by
    cases hmc : mch with
    | nil => rw [hmc] at hhead; simp at hhead
    | cons a l => exact ⟨a, l, rfl⟩
  have hm1 : m1 = '"' := by
    rw [hmch] at hhead
    simpa using hhead
  subst hm1
  rw [hmch]
  simp only [List.tail_cons, List.cons_append, List.dropWhile_cons,
    show isJsWs '"' = false from rfl, Bool.false_eq_true, if_false, List.head?_cons]
  rw [if_neg (by decide)]
  rw [← List.cons_append, ← hmch, hm]
  rfl

theorem parseValue_obj_empty (fuel : Nat) (rest : List Char) :
    parseValue (fuel + 1) ('\x7b' :: '\x7d' :: rest) = some (Json.obj [], rest) := by
  show parseValue (Nat.succ fuel) _ = _
  unfold parseValue
  simp only [List.dropWhile_cons, show isJsWs '\x7b' = false from rfl,
    show isJsWs '\x7d' = false from rfl, Bool.false_eq_true, if_false]
  rw [if_neg (by simp [List.take_succ_cons]), if_neg (by simp [List.take_succ_cons]),
    if_neg (by simp [List.take_succ_cons]), if_neg (by simp), if_neg (by simp),
    if_pos (by simp)]
  simp [List.dropWhile_cons, isJsWs]

theorem parseValue_jsNum (p : JsNum) (fuel : Nat) (rest : List Char) (h : NumStop rest) :
    parseValue (fuel + 1) (jsonChars (jsNumToJson p) ++ rest)
      = some (jsNumToJson p, rest) := by
  cases p with
  | nan => exact parseValue_null fuel rest
  | int n => exact parseValue_num n fuel rest h

theorem parseValue_favUnit (u : FavUnit) (fuel : Nat) (rest : List Char) :
    parseValue (fuel + 5) (jsonChars (favUnitToJson u) ++ rest)
      = some (favUnitToJson u, rest) := by
  have hnum : NumStop ('\x7d' :: rest) := ⟨by decide, by decide, by decide, by decide⟩
  have hpts := parseValue_jsNum u.points fuel ('\x7d' :: rest) hnum
  have h3 := parseMembers_last "points" (jsNumToJson u.points)
    (jsonChars (jsNumToJson u.points)) rest (fuel + 1) hpts
  have hname := parseValue_str u.name (fuel + 1)
    (',' :: ('"' :: (escChars "points".data ++ '"' :: ':'
      :: jsonChars (jsNumToJson u.points)) ++ '\x7d' :: rest))
  have h2 := parseMembers_cons "name" (Json.str u.name) (jsonChars (Json.str u.name))
    ('"' :: (escChars "points".data ++ '"' :: ':'
      :: jsonChars (jsNumToJson u.points)) ++ '\x7d' :: rest)
    (fuel + 2) hname
  have hid := parseValue_str u.id (fuel + 2)
    (',' :: ('"' :: (escChars "name".data ++ '"' :: ':' :: jsonChars (Json.str u.name))
      ++ ',' :: ('"' :: (escChars "points".data ++ '"' :: ':'
        :: jsonChars (jsNumToJson u.points)) ++ '\x7d' :: rest)))
  have h1 := parseMembers_cons "id" (Json.str u.id) (jsonChars (Json.str u.id))
    ('"' :: (escChars "name".data ++ '"' :: ':' :: jsonChars (Json.str u.name))
      ++ ',' :: ('"' :: (escChars "points".data ++ '"' :: ':'
        :: jsonChars (jsNumToJson u.points)) ++ '\x7d' :: rest))
    (fuel + 3) hid
  have hm : parseMembers (fuel + 4)
      (membersChars [("id", Json.str u.id), ("name", Json.str u.name),
        ("points", jsNumToJson u.points)] ++ '\x7d' :: rest)
      = some ([("id", Json.str u.id), ("name", Json.str u.name),
          ("points", jsNumToJson u.points)], rest) := by
    simp only [membersChars, List.append_assoc, List.cons_append] at h1 h2 h3 ⊢
    rw [h1, h2, h3]
    rfl
  have hhead : (membersChars [("id", Json.str u.id), ("name", Json.str u.name),
      ("points", jsNumToJson u.points)]).head? = some '"' := by
    simp [membersChars]
  have hobj := parseValue_obj (fuel + 4) _ rest _ hhead hm
  have he : jsonChars (favUnitToJson u) ++ rest
      = '\x7b' :: (membersChars [("id", Json.str u.id), ("name", Json.str u.name),
          ("points", jsNumToJson u.points)] ++ '\x7d' :: rest) := by
    show ('\x7b' :: (membersChars _ ++ ['\x7d'])) ++ rest = _
    simp
  rw [he]
  exact hobj

theorem parseMembers_favs (favs : Favs) (hne : favs ≠ []) :
    ∀ (fuel : Nat) (rest : List Char),
    parseMembers (favs.length + (fuel + 5))
        (membersChars (favs.map (fun p => (p.1, favUnitToJson p.2))) ++ '\x7d' :: rest)
      = some (favs.map (fun p => (p.1, favUnitToJson p.2)), rest) := by
  induction favs with
  | nil => exact absurd rfl hne
  | cons p tl ih =>
    intro fuel rest
    cases tl with
    | nil =>
      have hval := parseValue_favUnit p.2 fuel ('\x7d' :: rest)
      have hlast := parseMembers_last p.1 (favUnitToJson p.2)
        (jsonChars (favUnitToJson p.2)) rest (fuel + 5) hval
      have ef : ([p] : Favs).length + (fuel + 5) = (fuel + 5) + 1 := by
        simp
        omega
      rw [ef]
      simp only [List.map_cons, List.map_nil, membersChars]
      simpa using hlast
    | cons q tl2 =>
      have hval := parseValue_favUnit p.2 ((q :: tl2).length + fuel)
        (',' :: (membersChars ((q :: tl2).map (fun p => (p.1, favUnitToJson p.2)))
          ++ '\x7d' :: rest))
      have hcons := parseMembers_cons p.1 (favUnitToJson p.2)
        (jsonChars (favUnitToJson p.2))
        (membersChars ((q :: tl2).map (fun p => (p.1, favUnitToJson p.2)))
          ++ '\x7d' :: rest)
        ((q :: tl2).length + (fuel + 5)) hval
      have ef : ((p :: q :: tl2) : Favs).length + (fuel + 5)
          = ((q :: tl2).length + (fuel + 5)) + 1 := by
        simp
        omega
      rw [ef]
      have hm : membersChars ((p :: q :: tl2).map (fun p => (p.1, favUnitToJson p.2)))
            ++ '\x7d' :: rest
          = ('"' :: (escChars p.1.data ++ '"' :: ':' :: jsonChars (favUnitToJson p.2)))
            ++ ',' :: (membersChars ((q :: tl2).map (fun p => (p.1, favUnitToJson p.2)))
              ++ '\x7d' :: rest) := by
        simp [membersChars, List.append_assoc, List.cons_append]
      rw [hm]
      rw [show ('"' :: (escChars p.1.data ++ '"' :: ':' :: jsonChars (favUnitToJson p.2)))
            ++ ',' :: (membersChars ((q :: tl2).map (fun p => (p.1, favUnitToJson p.2)))
              ++ '\x7d' :: rest)
          = '"' :: (escChars p.1.data ++ '"' :: ':' :: jsonChars (favUnitToJson p.2))
            ++ ',' :: (membersChars ((q :: tl2).map (fun p => (p.1, favUnitToJson p.2)))
              ++ '\x7d' :: rest) from by simp]
      rw [hcons, ih (by simp) fuel rest]
      simp

theorem membersChars_favs_length (favs : Favs) (hne : favs ≠ []) :
    favs.length + 4 ≤ (membersChars (favs.map (fun p => (p.1, favUnitToJson p.2)))).length := by
  induction favs with
  | nil => exact absurd rfl hne
  | cons p tl ih =>
    have hunit : 2 ≤ (jsonChars (favUnitToJson p.2)).length := by
      show 2 ≤ ('\x7b' :: (membersChars _ ++ ['\x7d'])).length
      simp
    cases tl with
    | nil =>
      simp only [List.map_cons, List.map_nil, membersChars, List.length_cons,
        List.length_append, List.length_nil]
      omega
    | cons q tl2 =>
      have ih2 := ih (by simp)
      simp only [List.map_cons, membersChars, List.length_cons,
        List.length_append] at ih2 ⊢
      omega

theorem parseValue_favsJson (favs : Favs) (fuel : Nat) (rest : List Char) :
    parseValue (favs.length + (fuel + 5) + 1) (jsonChars (favsToJson favs) ++ rest)
      = some (favsToJson favs, rest) := by
  cases hf : favs with
  | nil =>
    show parseValue (([] : Favs).length + (fuel + 5) + 1) ('\x7b' :: '\x7d' :: rest)
      = some (Json.obj [], rest)
    simp only [List.length_nil, Nat.zero_add]
    exact parseValue_obj_empty (fuel + 5) rest
  | cons p tl =>
    have hhead : (membersChars ((p :: tl).map (fun p => (p.1, favUnitToJson p.2)))).head?
        = some '"' := by
      cases tl <;> simp [membersChars]
    have hm := parseMembers_favs (p :: tl) (by simp) fuel rest
    have hobj := parseValue_obj ((p :: tl).length + (fuel + 5)) _ rest _ hhead hm
    have he : jsonChars (favsToJson (p :: tl)) ++ rest
        = '\x7b' :: (membersChars ((p :: tl).map (fun p => (p.1, favUnitToJson p.2)))
            ++ '\x7d' :: rest) := by
      show ('\x7b' :: (membersChars _ ++ ['\x7d'])) ++ rest = _
      simp
    rw [he]
    exact hobj

theorem stringifyFavs_ne_empty (favs : Favs) : stringifyFavs favs ≠ "" := by
  intro h
  have h2 := congrArg String.data h
  have h3 : (stringifyFavs favs).data
      = '\x7b' :: (membersChars (favs.map (fun p => (p.1, favUnitToJson p.2))) ++ ['\x7d']) :=
    rfl
  rw [h3] at h2
  exact absurd h2 (by simp)

theorem parseJson_stringifyFavs (favs : Favs) :
    parseJson (stringifyFavs favs) = some (favsToJson favs) := by
  cases favs with
  | nil => rfl
  | cons p0 tl0 =>
    unfold parseJson
    have hdata : (stringifyFavs (p0 :: tl0)).data = jsonChars (favsToJson (p0 :: tl0)) := rfl
    rw [hdata]
    have hlen : (p0 :: tl0 : Favs).length + 5
        ≤ (jsonChars (favsToJson (p0 :: tl0))).length := by
      have := membersChars_favs_length (p0 :: tl0) (by simp)
      show _ ≤ ('\x7b' :: (membersChars _ ++ ['\x7d'])).length
      simp only [List.length_cons, List.length_append, List.length_singleton] at this ⊢
      omega
    have ef : (jsonChars (favsToJson (p0 :: tl0))).length + 1
        = (p0 :: tl0 : Favs).length
          + (((jsonChars (favsToJson (p0 :: tl0))).length
              - (p0 :: tl0 : Favs).length - 5) + 5) + 1 := by
      omega
    rw [ef]
    have hv := parseValue_favsJson (p0 :: tl0)
      ((jsonChars (favsToJson (p0 :: tl0))).length - (p0 :: tl0 : Favs).length - 5) []
    rw [List.append_nil] at hv
    rw [hv]
    rfl

theorem favUnitOfJson_favUnitToJson (u : FavUnit) :
    favUnitOfJson (favUnitToJson u) = u := by
  cases u with
  | mk i nm p =>
    cases p <;>
      simp [favUnitOfJson, favUnitToJson, strField, numField, jsNumToJson, List.find?]

theorem favsOfJson_favsToJson (favs : Favs) : favsOfJson (favsToJson favs) = favs := by
  show (favs.map (fun p => (p.1, favUnitToJson p.2))).map
      (fun p => (p.1, favUnitOfJson p.2)) = favs
  induction favs with
  | nil => rfl
  | cons p tl ih =>
    simp only [List.map_cons, ih, favUnitOfJson_favUnitToJson]

theorem loadFavorites_roundTrip (favs favs0 : Favs) :
    loadFavorites (some (stringifyFavs favs)) favs0 = favs := by
  show (if stringifyFavs favs = "" then favs0
    else match parseJson (stringifyFavs favs) with
      | some j => favsOfJson j
      | none => []) = favs
  rw [if_neg (stringifyFavs_ne_empty favs), parseJson_stringifyFavs]
  exact favsOfJson_favsToJson favs

/-!
Claim theorems.
-/

/-- C1: totalPoints returns the sum of the points of every added unit
and 0 on the empty roster; in the concrete scenario adding units of 100
and 180 points totals 280, and removing u1 leaves a total of 180 with
one roster entry. -/
theorem totalPoints_sum :
    (∀ units : List (String × String × Int),
      updatePointsTotal
          (units.foldl (fun a t => addUnitToArmy t.1 t.2.1 (intToStr t.2.2) a) [])
        = JsNum.int ((units.map (fun t => t.2.2)).sum)) ∧
    updatePointsTotal [] = JsNum.int 0 ∧
    updatePointsTotal
        (addUnitToArmy "u2" "Redemptor Dreadnought" "180"
          (addUnitToArmy "u1" "Intercessor Squad" "100" [])) = JsNum.int 280 ∧
    updatePointsTotal (removeUnitFromArmy "u1"
        (addUnitToArmy "u2" "Redemptor Dreadnought" "180"
          (addUnitToArmy "u1" "Intercessor Squad" "100" []))) = JsNum.int 180 ∧
    (removeUnitFromArmy "u1"
        (addUnitToArmy "u2" "Redemptor Dreadnought" "180"
          (addUnitToArmy "u1" "Intercessor Squad" "100" []))).length = 1 := by
  refine ⟨?_, rfl, by decide, by decide, by decide⟩
  intro units
  simpa using totalPoints_foldl units [] 0 rfl

/-- C2: removeById removes exactly the first entry whose id matches (the
result is eraseP, a sublist of the roster, so relative order is
preserved), a removal occurs exactly when some entry matches, an absent
id is a no-op reported as false, and a second immediate removal of the
same id reports false when no duplicate remained. -/
theorem removeById_spec (unitId : String) (army : List RosterUnit) :
    removeUnitFromArmy unitId army = army.eraseP (fun u => u.id == unitId) ∧
    removeOccurred unitId army = army.any (fun u => u.id == unitId) ∧
    (removeUnitFromArmy unitId army).Sublist army ∧
    (removeOccurred unitId army = false → removeUnitFromArmy unitId army = army) ∧
    ((removeUnitFromArmy unitId army).all (fun u => !(u.id == unitId)) = true →
      removeOccurred unitId (removeUnitFromArmy unitId army) = false) := by
  refine ⟨removeUnitFromArmy_eraseP _ _, removeOccurred_any _ _, ?_,
    removeUnitFromArmy_of_absent _ _, ?_⟩
  · rw [removeUnitFromArmy_eraseP]
    exact List.eraseP_sublist _
  · intro h
    rw [removeOccurred_any, List.any_eq_false]
    intro x hx
    have h2 := (List.all_eq_true.mp h) x hx
    simpa using h2

/-- Witness for removeById_spec on a two-unit roster. -/
theorem removeById_spec_witness :
    removeUnitFromArmy "u1"
        (addUnitToArmy "u2" "B" "2" (addUnitToArmy "u1" "A" "1" []))
      = (addUnitToArmy "u2" "B" "2" (addUnitToArmy "u1" "A" "1" [])).eraseP
          (fun u => u.id == "u1") ∧
    removeOccurred "u1" (removeUnitFromArmy "u1"
        (addUnitToArmy "u2" "B" "2" (addUnitToArmy "u1" "A" "1" []))) = false := by
  refine ⟨(removeById_spec "u1" _).1, ?_⟩
  exact (removeById_spec "u1"
    (addUnitToArmy "u2" "B" "2" (addUnitToArmy "u1" "A" "1" []))).2.2.2.2 (by decide)

/-- C3: toggleFavorite on a present id deletes that key (its lookup
becomes none, every other lookup is unchanged) and reports false; on an
absent id it appends the triple built from the unit under that key and
reports true; from the empty mapping one toggle lists exactly the one
favorite and a second toggle of the same unit empties the list. -/
theorem toggleFavorite_spec (unitId unitName : String) (p : Int) (favs : Favs) :
    (favLookup favs unitId = none →
      toggleFavorite unitId unitName (intToStr p) favs
        = (true, favs ++ [(unitId, ⟨unitId, unitName, JsNum.int p⟩)])) ∧
    ((favLookup favs unitId).isSome →
      (toggleFavorite unitId unitName (intToStr p) favs).1 = false ∧
      favLookup (toggleFavorite unitId unitName (intToStr p) favs).2 unitId = none ∧
      (∀ k, k ≠ unitId →
        favLookup (toggleFavorite unitId unitName (intToStr p) favs).2 k
          = favLookup favs k)) ∧
    (listFavorites (toggleFavorite unitId unitName (intToStr p) []).2
        = [⟨unitId, unitName, JsNum.int p⟩] ∧
      (toggleFavorite unitId unitName (intToStr p)
          (toggleFavorite unitId unitName (intToStr p) []).2).1 = false ∧
      listFavorites (toggleFavorite unitId unitName (intToStr p)
          (toggleFavorite unitId unitName (intToStr p) []).2).2 = []) := by
  refine ⟨?_, ?_, ?_⟩
  · intro h
    unfold toggleFavorite
    rw [h, parseIntJs_intToStr]
  · intro h
    obtain ⟨e, he⟩ := Option.isSome_iff_exists.mp h
    unfold toggleFavorite
    rw [he]
    exact ⟨rfl, favLookup_favDelete_self _ _,
      fun k hk => favLookup_favDelete_ne _ _ _ hk⟩
  · have h1 : toggleFavorite unitId unitName (intToStr p) []
        = (true, [(unitId, ⟨unitId, unitName, JsNum.int p⟩)]) := by
      unfold toggleFavorite
      rw [show favLookup [] unitId = none from rfl, parseIntJs_intToStr]
      rfl
    have h2 : favLookup [(unitId, (⟨unitId, unitName, JsNum.int p⟩ : FavUnit))] unitId
        = some ⟨unitId, unitName, JsNum.int p⟩ := by
      rw [favLookup_cons, if_pos (by simp)]
    have h3 : toggleFavorite unitId unitName (intToStr p)
          [(unitId, ⟨unitId, unitName, JsNum.int p⟩)]
        = (false, []) := by
      unfold toggleFavorite
      rw [h2]
      rw [favDelete_cons, if_pos (by simp)]
      rfl
    rw [h1]
    refine ⟨rfl, ?_, ?_⟩
    · rw [h3]
    · rw [h3]
      rfl

/-- Witness for toggleFavorite_spec from the empty mapping and back. -/
theorem toggleFavorite_spec_witness :
    toggleFavorite "u1" "A" (intToStr 5) []
      = (true, [("u1", ⟨"u1", "A", JsNum.int 5⟩)]) ∧
    (toggleFavorite "u1" "A" (intToStr 5)
        [("u1", ⟨"u1", "A", JsNum.int 5⟩)]).1 = false := by
  refine ⟨(toggleFavorite_spec "u1" "A" 5 []).1 (by decide), ?_⟩
  exact ((toggleFavorite_spec "u1" "A" 5
    [("u1", ⟨"u1", "A", JsNum.int 5⟩)]).2.1 (by decide)).1

/-- C5: loadFavorites is total (the parse failure is caught inside, so
no exception escapes); an absent stored value leaves the startup-empty
favorites empty, and every stored string on which JSON.parse fails
resets the favorites to the empty mapping. -/
theorem loadFavorites_malformed (stored : Option String) :
    (stored = none → loadFavorites stored [] = []) ∧
    (∀ s, stored = some s → parseJson s = none → loadFavorites stored [] = []) := by
  constructor
  · intro h
    subst h
    rfl
  · intro s h hp
    subst h
    show (if s = "" then [] else
      match parseJson s with
      | some j => favsOfJson j
      | none => []) = []
    by_cases he : s = ""
    · rw [if_pos he]
    · rw [if_neg he, hp]

/-- Witness for loadFavorites_malformed on the literal string not json. -/
theorem loadFavorites_malformed_witness :
    loadFavorites (some "not json") [] = [] :=
  (loadFavorites_malformed (some "not json")).2 "not json" rfl (by rfl)

/-- C6: after any prior-session sequence of toggleFavorite calls on
units with integer points, each saved write-through, loading the saved
favorites string reconstructs exactly the saved mapping: the same ids
bound to the same name and points triples. -/
theorem loadFavorites_reconstructs (ops : List (String × String × Int)) :
    loadFavorites
        (some (stringifyFavs
          (ops.foldl (fun f t => (toggleFavorite t.1 t.2.1 (intToStr t.2.2) f).2) [])))
        []
      = ops.foldl (fun f t => (toggleFavorite t.1 t.2.1 (intToStr t.2.2) f).2) [] :=
  loadFavorites_roundTrip _ _

/-- C10: a catalogue unit with no points cost renders the sentinel
attribute N/A, addUnitToArmy applies parseInt to it with no guard and
inserts a roster entry whose points are NaN, and the points total of a
roster containing that entry computes to NaN instead of a non-negative
integer. -/
theorem addUnit_NA_NaN :
    unitPointsAttr none = "N/A" ∧
    addUnitToArmy "uX" "No Cost Unit" (unitPointsAttr none) []
      = [⟨"uX", "No Cost Unit", JsNum.nan⟩] ∧
    updatePointsTotal (addUnitToArmy "uX" "No Cost Unit" (unitPointsAttr none)
        (addUnitToArmy "u1" "Intercessor Squad" "100" [])) = JsNum.nan := by
  exact ⟨rfl, by decide, by decide⟩

theorem toggleTwice_favs (unitId unitName unitPoints : String) (favs : Favs)
    (hnd : (favs.map Prod.fst).Nodup)
    (hagree : favLookup favs unitId = none ∨
      favLookup favs unitId = some ⟨unitId, unitName, parseIntJs unitPoints⟩) :
    (∀ k, favLookup (toggleFavorite unitId unitName unitPoints
        (toggleFavorite unitId unitName unitPoints favs).2).2 k = favLookup favs k) ∧
    ((toggleFavorite unitId unitName unitPoints
        (toggleFavorite unitId unitName unitPoints favs).2).2).Perm favs := by
  rcases hagree with hnone | hsome
  · have h1 : toggleFavorite unitId unitName unitPoints favs
        = (true, favs ++ [(unitId, ⟨unitId, unitName, parseIntJs unitPoints⟩)]) := by
      unfold toggleFavorite
      rw [hnone]
    have hl : favLookup (favs ++ [(unitId,
        (⟨unitId, unitName, parseIntJs unitPoints⟩ : FavUnit))]) unitId
        = some ⟨unitId, unitName, parseIntJs unitPoints⟩ := by
      rw [favLookup_append, hnone]
      rw [favLookup_cons, if_pos (by simp)]
      rfl
    have h2 : toggleFavorite unitId unitName unitPoints
          (favs ++ [(unitId, ⟨unitId, unitName, parseIntJs unitPoints⟩)])
        = (false, favs) := by
      unfold toggleFavorite
      rw [hl]
      rw [favDelete_append, favDelete_of_lookup_none favs unitId hnone,
        favDelete_cons, if_pos (by simp)]
      simp [favDelete]
    rw [h1]
    simp only
    rw [h2]
    exact ⟨fun k => rfl, List.Perm.refl favs⟩
  · have h1 : toggleFavorite unitId unitName unitPoints favs
        = (false, favDelete favs unitId) := by
      unfold toggleFavorite
      rw [hsome]
    have h2 : toggleFavorite unitId unitName unitPoints (favDelete favs unitId)
        = (true, favDelete favs unitId
            ++ [(unitId, ⟨unitId, unitName, parseIntJs unitPoints⟩)]) := by
      unfold toggleFavorite
      rw [favLookup_favDelete_self]
    rw [h1]
    simp only
    rw [h2]
    simp only
    constructor
    · intro k
      by_cases hk : k = unitId
      · subst hk
        rw [favLookup_append, favLookup_favDelete_self]
        rw [favLookup_cons, if_pos (by simp)]
        rw [hsome]
        rfl
      · rw [favLookup_append, favLookup_favDelete_ne _ _ _ hk]
        rw [favLookup_cons, if_neg (by simpa using fun he => hk he.symm)]
        rw [show favLookup ([] : Favs) k = none from rfl]
        exact Option.or_none
    · exact favDelete_perm favs unitId _ hnd hsome

/-- C4 as stated is false on the code: toggling a unit that sits before
another favorite and then toggling it again moves its key to the end of
the favorites object, so the string persisted after the second toggle
differs from the string persisted before the first toggle, even though
both encode the same mapping. -/
theorem toggleTwice_persist_counterexample :
    storageGet ((step (Event.favorite "a" "A" "1")
        (step (Event.favorite "a" "A" "1")
          (step (Event.favorite "b" "B" "2")
            (step (Event.favorite "a" "A" "1") (initialAppState []))))).storage)
      "favorites"
    ≠ storageGet ((step (Event.favorite "b" "B" "2")
        (step (Event.favorite "a" "A" "1") (initialAppState []))).storage)
      "favorites" := by
  decide

/-- C4 amended: toggling the same unit twice restores the favorited
status of every id (the mapping as a lookup function is unchanged) and
yields a permutation of the original favorites object, and the value
persisted after the second toggle deserializes to that same mapping;
only the key order inside the persisted string may differ from the value
persisted before the first toggle. -/
theorem toggleTwice_restores (unitId unitName unitPoints : String) (st : AppState)
    (hnd : (st.favorites.map Prod.fst).Nodup)
    (hagree : favLookup st.favorites unitId = none ∨
      favLookup st.favorites unitId
        = some ⟨unitId, unitName, parseIntJs unitPoints⟩) :
    (∀ k, favLookup ((favClick unitId unitName unitPoints
        (favClick unitId unitName unitPoints st)).favorites) k
      = favLookup st.favorites k) ∧
    ((favClick unitId unitName unitPoints
        (favClick unitId unitName unitPoints st)).favorites).Perm st.favorites ∧
    (loadFavorites
        (storageGet ((favClick unitId unitName unitPoints
          (favClick unitId unitName unitPoints st)).storage) "favorites")
        []).Perm st.favorites := by
  have hcore := toggleTwice_favs unitId unitName unitPoints st.favorites hnd hagree
  have hfav : (favClick unitId unitName unitPoints
      (favClick unitId unitName unitPoints st)).favorites
      = (toggleFavorite unitId unitName unitPoints
          (toggleFavorite unitId unitName unitPoints st.favorites).2).2 := rfl
  refine ⟨fun k => by rw [hfav]; exact hcore.1 k, by rw [hfav]; exact hcore.2, ?_⟩
  have hst : storageGet ((favClick unitId unitName unitPoints
      (favClick unitId unitName unitPoints st)).storage) "favorites"
      = some (stringifyFavs ((favClick unitId unitName unitPoints
          (favClick unitId unitName unitPoints st)).favorites)) :=
    favorites_writeThrough _ _ _ _
  rw [hst, loadFavorites_roundTrip, hfav]
  exact hcore.2

/-- Witness for toggleTwice_restores on a two-favorite state. -/
theorem toggleTwice_restores_witness :
    ((favClick "a" "A" "1" (favClick "a" "A" "1"
        (step (Event.favorite "b" "B" "2")
          (step (Event.favorite "a" "A" "1") (initialAppState []))))).favorites).Perm
      (step (Event.favorite "b" "B" "2")
        (step (Event.favorite "a" "A" "1") (initialAppState []))).favorites ∧
    (loadFavorites
        (storageGet ((favClick "a" "A" "1" (favClick "a" "A" "1"
          (step (Event.favorite "b" "B" "2")
            (step (Event.favorite "a" "A" "1") (initialAppState []))))).storage)
          "favorites")
        []).Perm
      (step (Event.favorite "b" "B" "2")
        (step (Event.favorite "a" "A" "1") (initialAppState []))).favorites := by
  have h := toggleTwice_restores "a" "A" "1"
    (step (Event.favorite "b" "B" "2")
      (step (Event.favorite "a" "A" "1") (initialAppState [])))
    (by decide) (Or.inr (by decide))
  exact ⟨h.2.1, h.2.2⟩

/-- The string field read from a parsed campaign record, with the
empty-string default of the x || fallback pattern. -/
def fieldDefault (j : Json) (k : String) : String :=
  match j with
  | Json.obj kvs => strField kvs k
  | _ => ""

theorem fieldOrEmpty_ok {j : Json} (hj : j ≠ Json.null) (k : String) :
    fieldOrEmpty j k = Except.ok (fieldDefault j k) := by
  cases j with
  | null => exact absurd rfl hj
  | bool b => rfl
  | num n => rfl
  | numRaw s => rfl
  | str s => rfl
  | arr xs => rfl
  | obj kvs => rfl

/-- C9 as stated is false on the code: loadCrusadeData applies
JSON.parse with no try/catch, so when the stored crusadeData string is
the malformed literal not json the SyntaxError escapes the startup
path. -/
theorem loadCrusadeData_counterexample :
    loadCrusadeData (some "not json") = Except.error "SyntaxError" := rfl

/-- C9 amended: an absent campaign record loads as empty fields and a
stored string that parses to anything but the JSON literal null loads
without an exception, but for a nonempty stored string on which
JSON.parse fails the exception escapes loadCrusadeData uncaught (and a
stored literal null throws a TypeError at the first property access), so
a corrupt stored campaign record is fatal to the startup sequence. -/
theorem loadCrusadeData_spec (s : String) :
    loadCrusadeData none = Except.ok ("", "", "") ∧
    (s ≠ "" → parseJson s = none →
      loadCrusadeData (some s) = Except.error "SyntaxError") ∧
    (∀ j, parseJson s = some j → j ≠ Json.null →
      loadCrusadeData (some s)
        = Except.ok (fieldDefault j "battleHonors", fieldDefault j "xp",
            fieldDefault j "rp")) := by
  refine ⟨rfl, ?_, ?_⟩
  · intro hne hp
    show (if s = "" then Except.ok ("", "", "") else
      match parseJson s with
      | none => Except.error "SyntaxError"
      | some j => do
        let bh ← fieldOrEmpty j "battleHonors"
        let xp ← fieldOrEmpty j "xp"
        let rp ← fieldOrEmpty j "rp"
        Except.ok (bh, xp, rp)) = Except.error "SyntaxError"
    rw [if_neg hne, hp]
  · intro j hp hj
    have hne : s ≠ "" := by
      intro he
      subst he
      rw [show parseJson "" = none from rfl] at hp
      exact Option.noConfusion hp
    show (if s = "" then Except.ok ("", "", "") else
      match parseJson s with
      | none => Except.error "SyntaxError"
      | some j => do
        let bh ← fieldOrEmpty j "battleHonors"
        let xp ← fieldOrEmpty j "xp"
        let rp ← fieldOrEmpty j "rp"
        Except.ok (bh, xp, rp))
      = Except.ok (fieldDefault j "battleHonors", fieldDefault j "xp",
          fieldDefault j "rp")
    rw [if_neg hne, hp]
    simp only [fieldOrEmpty_ok hj]
    rfl

/-- Witness for loadCrusadeData_spec: a malformed stored string throws
and a well-formed one loads. -/
theorem loadCrusadeData_spec_witness :
    loadCrusadeData (some "xyz") = Except.error "SyntaxError" ∧
    loadCrusadeData none = Except.ok ("", "", "") := by
  refine ⟨(loadCrusadeData_spec "xyz").2.1 (by decide) (by rfl), ?_⟩
  exact (loadCrusadeData_spec "").1

end ListBuilder
